import Mathlib

/-!
A verification development for the timeknight durable time-tracking core
(`src/core/record.rs`, `src/core/project.rs`, `src/db/database.rs`,
`src/db/storage/action.rs`, `src/db/storage/fs.rs`).

The Rust code is shallowly embedded:

* `chrono::DateTime<FixedOffset>` values are modelled by their epoch-second
  instant as an `Int`; chrono's `PartialEq`/`Ord`/`signed_duration_since` on
  `DateTime` all operate on the instant and ignore the offset, and the core
  never inspects an offset of a stored timestamp, so the offset is carried
  separately only where the wire format serializes it (`tz` fields of
  `Action`).
* In-place mutation (`&mut self`) becomes explicit state passing: an
  operation returns the updated value next to the source's return value.
* `Result<T, E>` becomes `Except E T`; a Rust panic (`expect` / out-of-bounds
  slice index) has no value to return and is modelled by a dedicated
  constructor (or `Option.none`) of the operation's result type.
* Machine integers (`i64`, `i32`) are `Int` with explicit two's-complement
  reduction `% 2 ^ w` at the byte boundary.
* `BTreeMap<ProjectKey, Project>` is an association list kept sorted by key,
  with `entry`-style lookup / insert / remove.
-/

namespace Timeknight

/-! ## src/core/record.rs -/

/-- `RecordEnded` (record.rs): outcome of `Record::crop`. -/
inductive RecordEnded where
  | Noop
  | Cropped
  | Ended
deriving DecidableEq, Repr

/-- `IllegalStateError` (record.rs): rejection reasons of `Record::crop`. -/
inductive IllegalStateError where
  | NegativeDuration
  | NoDuration
deriving DecidableEq, Repr

/-- `Record` (record.rs): a time interval. `start` and the optional end are
`chrono::DateTime<FixedOffset>` values modelled by their epoch-second
instant; the source field `end` is a Lean keyword and is named `endTime`
here. -/
structure Record where
  start : Int
  endTime : Option Int
  billable : Bool
deriving DecidableEq, Repr

/-- `Record::started_on(start)`: open record, `end = None`, `billable = true`. -/
def Record.startedOn (start : Int) : Record :=
  { start := start, endTime := none, billable := true }

/-- `Record::is_on_going`. -/
def Record.isOnGoing (r : Record) : Bool :=
  r.endTime.isNone

/-- `Record::is_billable`. -/
def Record.isBillable (r : Record) : Bool :=
  r.billable

/-- `Record::duration`: seconds from `start` to `end` (or to `now` for an
open record), clamped at zero. `Record::now()` is process wall-clock time
and is passed in explicitly. -/
def Record.duration (r : Record) (now : Int) : Nat :=
  let e := r.endTime.getD now
  let d := e - r.start
  if d < 0 then 0 else d.toNat

/-- `Record::crop(new_end)` (record.rs lines 72–91), transcribed arm by arm
from the source's `match self.start.cmp(&new_end)`: `Greater` (start above
`new_end`) rejects with `NegativeDuration`; `Less` rejects with
`NoDuration`; `Equal` closes an open record (`Ended`), shrinks a closed one
whose end lies above `new_end` (`Cropped`), and otherwise leaves it as is
(`Noop`). The updated record is returned next to the source's
`RResult`. -/
def Record.crop (r : Record) (newEnd : Int) :
    Except IllegalStateError (RecordEnded × Record) :=
  match compare r.start newEnd with
  | .gt => .error .NegativeDuration
  | .lt => .error .NoDuration
  | .eq =>
    match r.endTime with
    | none => .ok (.Ended, { r with endTime := some newEnd })
    | some e =>
      if newEnd < e then .ok (.Cropped, { r with endTime := some newEnd })
      else .ok (.Noop, r)

/-- `impl Ord for Record` (project.rs lines 117–121): records order solely
by `start`. -/
def Record.cmp (a b : Record) : Ordering :=
  compare a.start b.start

/-- `impl PartialEq for Record` (project.rs lines 102–109): equality compares
`start`, `duration`, `billable` and `is_on_going`; `duration` of an open
record reads the wall clock, passed in as `now`. -/
def Record.beq (now : Int) (a b : Record) : Bool :=
  a.start == b.start
    && a.duration now == b.duration now
    && a.isBillable == b.isBillable
    && a.isOnGoing == b.isOnGoing

/-! ## src/core/project.rs -/

/-- `RecordAdded` (project.rs): outcome of `Project::add_record`. -/
inductive RecordAdded where
  | Started
  | Switched
  | Cropped
deriving DecidableEq, Repr

/-- `Project` (project.rs): a named ordered collection of records. -/
structure Project where
  name : String
  records : List Record
deriving DecidableEq, Repr

/-- `Project::new(name)`: empty project. -/
def Project.new (name : String) : Project :=
  { name := name, records := [] }

/-- `Project::in_flight`: the trailing record exists and is open. -/
def Project.inFlight (p : Project) : Bool :=
  match p.records.getLast? with
  | none => false
  | some record => record.isOnGoing

/-- `Project::add_record(record)` (project.rs lines 58–82): crops the
trailing record in place at the new record's start (if any), then pushes the
new record, mapping the crop outcome `Noop ↦ Started`, `Ended ↦ Switched`,
`Cropped ↦ Cropped`; a crop rejection is returned unchanged and nothing is
pushed (the `Err` arms of `Record::crop` do not mutate the record). -/
def Project.addRecord (p : Project) (record : Record) :
    Except IllegalStateError (RecordAdded × Project) :=
  match p.records.getLast? with
  | none => .ok (.Started, { p with records := p.records ++ [record] })
  | some last =>
    match last.crop record.start with
    | .ok (outcome, last2) =>
      let added : RecordAdded :=
        match outcome with
        | .Noop => .Started
        | .Ended => .Switched
        | .Cropped => .Cropped
      .ok (added, { p with records := p.records.dropLast ++ [last2, record] })
    | .error err => .error err

/-- `Project::start` (project.rs lines 54–56): `add_record(Record::new())`;
`Record::new()` opens a record at the wall clock, passed in as `now`. -/
def Project.start (p : Project) (now : Int) :
    Except IllegalStateError (RecordAdded × Project) :=
  p.addRecord (Record.startedOn now)

/-- `Project::end_at(end)` (project.rs lines 84–90): crops the trailing
record; `records.last_mut().expect("No record present!")` panics on an empty
project, modelled as `none`. -/
def Project.endAt (p : Project) (endT : Int) :
    Option (Except IllegalStateError (RecordEnded × Project)) :=
  match p.records.getLast? with
  | none => none
  | some last =>
    some ((last.crop endT).map fun or2 =>
      (or2.1, { p with records := p.records.dropLast ++ [or2.2] }))

/-! ## Byte-level helpers for the wire format (src/db/storage/action.rs)

Bytes are `Nat`s below `256`. UTF-8 is needed because the wire format stores
project names as `String::as_bytes` and recovers them with
`String::from_utf8_lossy`; the decoder below accepts exactly the well-formed
UTF-8 byte strings (as `str::from_utf8` does) and is the identity
composition with the encoder, which is all `from_utf8_lossy` guarantees on
well-formed input. -/

/-- Decode a 2-byte UTF-8 sequence after leading byte `b0 ∈ [0xC2, 0xDF]`:
one continuation byte, yielding the scalar value and the remaining bytes. -/
def utf8Decode2 (b0 : Nat) : List Nat → Option (Nat × List Nat)
  | b1 :: rest =>
    if 0x80 ≤ b1 ∧ b1 < 0xC0 then some ((b0 - 0xC0) * 0x40 + (b1 - 0x80), rest) else none
  | [] => none

/-- Decode a 3-byte UTF-8 sequence after leading byte `b0 ∈ [0xE0, 0xEF]`:
two continuation bytes; overlong encodings and surrogate values are
rejected. -/
def utf8Decode3 (b0 : Nat) : List Nat → Option (Nat × List Nat)
  | b1 :: b2 :: rest =>
    if (0x80 ≤ b1 ∧ b1 < 0xC0) ∧ (0x80 ≤ b2 ∧ b2 < 0xC0) then
      let n := (b0 - 0xE0) * 0x1000 + (b1 - 0x80) * 0x40 + (b2 - 0x80)
      if 0x800 ≤ n ∧ ¬(0xD800 ≤ n ∧ n < 0xE000) then some (n, rest) else none
    else none
  | _ => none

/-- Decode a 4-byte UTF-8 sequence after leading byte `b0 ∈ [0xF0, 0xF4]`:
three continuation bytes; overlong and out-of-range values are rejected. -/
def utf8Decode4 (b0 : Nat) : List Nat → Option (Nat × List Nat)
  | b1 :: b2 :: b3 :: rest =>
    if (0x80 ≤ b1 ∧ b1 < 0xC0) ∧ (0x80 ≤ b2 ∧ b2 < 0xC0) ∧ (0x80 ≤ b3 ∧ b3 < 0xC0) then
      let n := (b0 - 0xF0) * 0x40000 + (b1 - 0x80) * 0x1000 + (b2 - 0x80) * 0x40 + (b3 - 0x80)
      if 0x10000 ≤ n ∧ n < 0x110000 then some (n, rest) else none
    else none
  | _ => none

/-- Decode one UTF-8 scalar value from the front of a byte string, returning
it with the unconsumed tail; `none` on an empty or ill-formed front. -/
def utf8DecodeStep : List Nat → Option (Nat × List Nat)
  | [] => none
  | b0 :: bs =>
    if b0 < 0x80 then some (b0, bs)
    else if b0 < 0xC2 then none
    else if b0 < 0xE0 then utf8Decode2 b0 bs
    else if b0 < 0xF0 then utf8Decode3 b0 bs
    else if b0 < 0xF5 then utf8Decode4 b0 bs
    else none

theorem utf8Decode2_length {b0 : Nat} {bs : List Nat} {n : Nat} {rest : List Nat}
    (h : utf8Decode2 b0 bs = some (n, rest)) : rest.length < bs.length := by
  match bs with
  | [] => simp [utf8Decode2] at h
  | b1 :: bs1 =>
    simp only [utf8Decode2] at h
    split_ifs at h
    injection h with h'
    rw [Prod.mk.injEq] at h'
    rw [← h'.2]
    simp only [List.length_cons]
    omega

theorem utf8Decode3_length {b0 : Nat} {bs : List Nat} {n : Nat} {rest : List Nat}
    (h : utf8Decode3 b0 bs = some (n, rest)) : rest.length < bs.length := by
  match bs with
  | [] => simp [utf8Decode3] at h
  | [b1] => simp [utf8Decode3] at h
  | b1 :: b2 :: bs2 =>
    simp only [utf8Decode3] at h
    split_ifs at h
    injection h with h'
    rw [Prod.mk.injEq] at h'
    rw [← h'.2]
    simp only [List.length_cons]
    omega

theorem utf8Decode4_length {b0 : Nat} {bs : List Nat} {n : Nat} {rest : List Nat}
    (h : utf8Decode4 b0 bs = some (n, rest)) : rest.length < bs.length := by
  match bs with
  | [] => simp [utf8Decode4] at h
  | [b1] => simp [utf8Decode4] at h
  | [b1, b2] => simp [utf8Decode4] at h
  | b1 :: b2 :: b3 :: bs3 =>
    simp only [utf8Decode4] at h
    split_ifs at h
    injection h with h'
    rw [Prod.mk.injEq] at h'
    rw [← h'.2]
    simp only [List.length_cons]
    omega

theorem utf8DecodeStep_length : ∀ {bs : List Nat} {n : Nat} {rest : List Nat},
    utf8DecodeStep bs = some (n, rest) → rest.length < bs.length := by
  intro bs n rest h
  match bs with
  | [] => simp [utf8DecodeStep] at h
  | b0 :: bs =>
    simp only [utf8DecodeStep] at h
    split_ifs at h
    · injection h with h'
      rw [Prod.mk.injEq] at h'
      rw [← h'.2]
      simp only [List.length_cons]
      omega
    · exact Nat.lt_trans (utf8Decode2_length h) (by simp)
    · exact Nat.lt_trans (utf8Decode3_length h) (by simp)
    · exact Nat.lt_trans (utf8Decode4_length h) (by simp)

/-- Fuel-driven worker for the whole-string UTF-8 decoder; the fuel is an
upper bound on the number of characters still to be decoded (one byte each
at least), making the recursion structural and so kernel-computable. -/
def utf8DecodeListF : Nat → List Nat → Option (List Char)
  | _, [] => some []
  | 0, _ :: _ => none
  | fuel + 1, b :: bs =>
    match utf8DecodeStep (b :: bs) with
    | some (n, rest) => (utf8DecodeListF fuel rest).map (Char.ofNat n :: ·)
    | none => none

/-- Decode a whole byte string as UTF-8 (the acceptance of
`str::from_utf8`): `some` of the scalar-value sequence iff the bytes are
well-formed UTF-8. -/
def utf8DecodeList (bs : List Nat) : Option (List Char) :=
  utf8DecodeListF bs.length bs

theorem utf8DecodeListF_congr :
    ∀ (fuel1 fuel2 : Nat) (bs : List Nat), bs.length ≤ fuel1 → bs.length ≤ fuel2 →
      utf8DecodeListF fuel1 bs = utf8DecodeListF fuel2 bs := by
  intro fuel1
  induction fuel1 with
  | zero =>
    intro fuel2 bs h1 h2
    have hnil : bs = [] := List.length_eq_zero.mp (Nat.le_zero.mp h1)
    subst hnil
    cases fuel2 <;> rfl
  | succ fuel ih =>
    intro fuel2 bs h1 h2
    cases bs with
    | nil => cases fuel2 <;> rfl
    | cons b bs' =>
      cases fuel2 with
      | zero => simp at h2
      | succ fuel2' =>
        show (match utf8DecodeStep (b :: bs') with
          | some (n, rest) => (utf8DecodeListF fuel rest).map (Char.ofNat n :: ·)
          | none => none) =
          (match utf8DecodeStep (b :: bs') with
          | some (n, rest) => (utf8DecodeListF fuel2' rest).map (Char.ofNat n :: ·)
          | none => none)
        cases hstep : utf8DecodeStep (b :: bs') with
        | none => rfl
        | some nr =>
          obtain ⟨n, rest⟩ := nr
          have hlt := utf8DecodeStep_length hstep
          simp only [List.length_cons] at h1 h2 hlt
          dsimp only
          rw [ih fuel2' rest (by omega) (by omega)]

theorem utf8DecodeList_some {bs : List Nat} {n : Nat} {rest : List Nat}
    (h : utf8DecodeStep bs = some (n, rest)) :
    utf8DecodeList bs = (utf8DecodeList rest).map (Char.ofNat n :: ·) := by
  cases bs with
  | nil => simp [utf8DecodeStep] at h
  | cons b bs' =>
    have hlt := utf8DecodeStep_length h
    simp only [List.length_cons] at hlt
    show utf8DecodeListF (bs'.length + 1) (b :: bs') = _
    show (match utf8DecodeStep (b :: bs') with
      | some (n, rest) => (utf8DecodeListF bs'.length rest).map (Char.ofNat n :: ·)
      | none => none) = _
    rw [h]
    dsimp only
    rw [utf8DecodeListF_congr bs'.length rest.length rest (by omega) (by omega)]
    rfl

theorem utf8DecodeList_nil : utf8DecodeList [] = some [] := rfl

/-- The UTF-8 encoding of one scalar value, as produced by Rust
`String::as_bytes` for one `char`. -/
def utf8EncodeChar (c : Char) : List Nat :=
  let n := c.toNat
  if n < 0x80 then [n]
  else if n < 0x800 then [0xC0 + n / 0x40, 0x80 + n % 0x40]
  else if n < 0x10000 then [0xE0 + n / 0x1000, 0x80 + n / 0x40 % 0x40, 0x80 + n % 0x40]
  else [0xF0 + n / 0x40000, 0x80 + n / 0x1000 % 0x40, 0x80 + n / 0x40 % 0x40, 0x80 + n % 0x40]

theorem char_toNat_valid (c : Char) :
    c.toNat < 0xd800 ∨ (0xdfff < c.toNat ∧ c.toNat < 0x110000) := by
  rcases c.valid with h | ⟨h1, h2⟩
  · exact Or.inl (UInt32.toNat_lt_of_lt (by decide) h)
  · exact Or.inr ⟨UInt32.lt_toNat_of_lt (by decide) h1,
      UInt32.toNat_lt_of_lt (by decide) h2⟩

theorem utf8DecodeStep_encode (c : Char) (rest : List Nat) :
    utf8DecodeStep (utf8EncodeChar c ++ rest) = some (c.toNat, rest) := by
  have hv := char_toNat_valid c
  unfold utf8EncodeChar
  by_cases h1 : c.toNat < 0x80
  · rw [if_pos h1]
    simp only [List.cons_append, List.nil_append, utf8DecodeStep]
    rw [if_pos h1]
  · by_cases h2 : c.toNat < 0x800
    · rw [if_neg h1, if_pos h2]
      simp only [List.cons_append, List.nil_append, utf8DecodeStep]
      rw [if_neg (by omega), if_neg (by omega), if_pos (by omega)]
      simp only [utf8Decode2]
      rw [if_pos (by omega)]
      have hn : (0xC0 + c.toNat / 0x40 - 0xC0) * 0x40 + (0x80 + c.toNat % 0x40 - 0x80)
          = c.toNat := by omega
      rw [hn]
    · by_cases h3 : c.toNat < 0x10000
      · rw [if_neg h1, if_neg h2, if_pos h3]
        simp only [List.cons_append, List.nil_append, utf8DecodeStep]
        rw [if_neg (by omega), if_neg (by omega), if_neg (by omega), if_pos (by omega)]
        simp only [utf8Decode3]
        rw [if_pos (by omega)]
        have hn : (0xE0 + c.toNat / 0x1000 - 0xE0) * 0x1000 +
            (0x80 + c.toNat / 0x40 % 0x40 - 0x80) * 0x40 + (0x80 + c.toNat % 0x40 - 0x80)
            = c.toNat := by omega
        rw [hn, if_pos (by omega)]
      · rw [if_neg h1, if_neg h2, if_neg h3]
        simp only [List.cons_append, List.nil_append, utf8DecodeStep]
        rw [if_neg (by omega), if_neg (by omega), if_neg (by omega), if_neg (by omega),
          if_pos (by omega)]
        simp only [utf8Decode4]
        rw [if_pos (by omega)]
        have hn : (0xF0 + c.toNat / 0x40000 - 0xF0) * 0x40000 +
            (0x80 + c.toNat / 0x1000 % 0x40 - 0x80) * 0x1000 +
            (0x80 + c.toNat / 0x40 % 0x40 - 0x80) * 0x40 + (0x80 + c.toNat % 0x40 - 0x80)
            = c.toNat := by omega
        rw [hn, if_pos (by omega)]

/-- `String::as_bytes` for a character sequence: concatenated per-character
UTF-8 encodings. -/
def utf8EncodeList (cs : List Char) : List Nat :=
  (cs.map utf8EncodeChar).flatten

theorem utf8DecodeList_encode (cs : List Char) (rest : List Nat) :
    utf8DecodeList (utf8EncodeList cs ++ rest) =
      (utf8DecodeList rest).map (cs ++ ·) := by
  induction cs with
  | nil =>
    simp [utf8EncodeList]
  | cons c cs ih =>
    have : utf8EncodeList (c :: cs) ++ rest = utf8EncodeChar c ++ (utf8EncodeList cs ++ rest) := by
      simp [utf8EncodeList]
    rw [this, utf8DecodeList_some (utf8DecodeStep_encode c _), ih, Char.ofNat_toNat]
    cases utf8DecodeList rest
    · rfl
    · simp

theorem utf8_roundtrip (cs : List Char) :
    utf8DecodeList (utf8EncodeList cs) = some cs := by
  have := utf8DecodeList_encode cs []
  simpa [utf8DecodeList_nil] using this

/-- Little-endian base-256 digits, least significant first, `len` bytes. -/
def natToLeBytes : Nat → Nat → List Nat
  | 0, _ => []
  | len + 1, n => n % 256 :: natToLeBytes len (n / 256)

/-- Rebuild a `Nat` from little-endian base-256 digits. -/
def natFromLeBytes : List Nat → Nat
  | [] => 0
  | b :: bs => b + 256 * natFromLeBytes bs

/-- Reinterpret an unsigned `w`-bit value as two's-complement signed. -/
def toSigned (w : Nat) (n : Nat) : Int :=
  if n < 2 ^ (w - 1) then (n : Int) else (n : Int) - 2 ^ w

/-- `i64::to_le_bytes`: two's-complement little-endian, 8 bytes. -/
def i64ToLeBytes (x : Int) : List Nat :=
  natToLeBytes 8 (x % 2 ^ 64).toNat

/-- `i64::from_le_bytes`. -/
def i64FromLeBytes (bs : List Nat) : Int :=
  toSigned 64 (natFromLeBytes bs)

/-- `i32::to_le_bytes`: two's-complement little-endian, 4 bytes. -/
def i32ToLeBytes (x : Int) : List Nat :=
  natToLeBytes 4 (x % 2 ^ 32).toNat

/-- `i32::from_le_bytes`. -/
def i32FromLeBytes (bs : List Nat) : Int :=
  toSigned 32 (natFromLeBytes bs)

theorem natToLeBytes_length (len n : Nat) : (natToLeBytes len n).length = len := by
  induction len generalizing n with
  | zero => rfl
  | succ len ih => simp [natToLeBytes, ih]

theorem natFromLeBytes_toLeBytes (len n : Nat) :
    natFromLeBytes (natToLeBytes len n) = n % 256 ^ len := by
  induction len generalizing n with
  | zero => simp [natToLeBytes, natFromLeBytes, Nat.mod_one]
  | succ len ih =>
    rw [natToLeBytes, natFromLeBytes, ih]
    rw [pow_succ']
    have hsplit := Nat.div_add_mod (n % (256 * 256 ^ len)) 256
    rw [Nat.mod_mul_right_div_self, Nat.mod_mod_of_dvd _ ⟨256 ^ len, rfl⟩] at hsplit
    omega

theorem i64_roundtrip (x : Int) (h1 : -(2 ^ 63) ≤ x) (h2 : x < 2 ^ 63) :
    i64FromLeBytes (i64ToLeBytes x) = x := by
  rw [i64ToLeBytes, i64FromLeBytes, natFromLeBytes_toLeBytes]
  unfold toSigned
  have h256 : (256 : Nat) ^ 8 = 2 ^ 64 := by norm_num
  rw [h256]
  omega

theorem i32_roundtrip (x : Int) (h1 : -(2 ^ 31) ≤ x) (h2 : x < 2 ^ 31) :
    i32FromLeBytes (i32ToLeBytes x) = x := by
  rw [i32ToLeBytes, i32FromLeBytes, natFromLeBytes_toLeBytes]
  unfold toSigned
  have h256 : (256 : Nat) ^ 4 = 2 ^ 32 := by norm_num
  rw [h256]
  omega

/-! ## src/db/database.rs — ProjectKey -/

/-- `ProjectKey` (database.rs lines 46–64): normalized project identity. -/
structure ProjectKey where
  key : String
deriving DecidableEq, Repr

/-- `ProjectKey::new(key)`: lower-cases the name. Rust `str::to_lowercase`
applies the full Unicode simple case mapping; this model applies
`Char.toLower`, its restriction to the ASCII range. Every property proved
below is invariant under the exact case-mapping table: the key function
only ever appears applied to the same name on both sides of an equality. -/
def ProjectKey.new (key : String) : ProjectKey :=
  { key := { data := key.data.map Char.toLower } }

/-- `ProjectKey::raw(key)`: wraps the string unchanged. -/
def ProjectKey.raw (key : String) : ProjectKey :=
  { key := key }

/-! ## src/db/storage/action.rs -/

/-- `Action` (action.rs lines 23–29): the four durable mutation intents.
`ts` is `i64` epoch seconds, `tz` is `i32` offset seconds
(`utc_minus_local`). -/
inductive Action where
  | ProjectAdd (name : String)
  | ProjectDel (name : String)
  | RecordStart (name : String) (ts : Int) (tz : Int)
  | RecordStop (ts : Int) (tz : Int)
deriving DecidableEq, Repr

/-- `impl From<&Action> for Vec<u8>` (action.rs lines 99–138): tag byte,
variant payload, then the `\n` frame delimiter. -/
def Action.toBytes : Action → List Nat
  | .ProjectAdd name => 127 :: utf8EncodeList name.data ++ [10]
  | .ProjectDel name => 126 :: utf8EncodeList name.data ++ [10]
  | .RecordStart name ts tz =>
    125 :: (i64ToLeBytes ts ++ i32ToLeBytes tz ++ utf8EncodeList name.data) ++ [10]
  | .RecordStop ts tz => 124 :: (i64ToLeBytes ts ++ i32ToLeBytes tz) ++ [10]

/-- `String::from_utf8_lossy(bs).to_string()`: on well-formed UTF-8 this is
exactly the decoded string; on ill-formed input the source substitutes
U+FFFD for each maximal ill-formed subpart, which this model abstracts to
one U+FFFD per offending byte (only the textual form of an already-corrupt
name differs). -/
def fromUtf8Lossy (bs : List Nat) : String :=
  match utf8DecodeList bs with
  | some cs => { data := cs }
  | none => { data := bs.map fun _ => Char.ofNat 0xFFFD }

/-- Result of `Action::from_bytes`: `ok` mirrors
`Ok((Option<ProjectKey>, Action))`, `err` mirrors `Err(())` for an
unrecognized tag, and `crash` marks the panics of the source (indexing
`data[0]` on an empty slice, or slicing `data[13..]`/`data[1..9]`/
`data[9..13]` beyond the input's length). -/
inductive DecodeResult where
  | ok (key : Option ProjectKey) (action : Action)
  | err
  | crash
deriving DecidableEq, Repr

/-- `Action::from_bytes(data)` (action.rs lines 70–96). `data[0]` panics on
an empty slice. Tags 127/126 read the name from `data[1..]` (in bounds once
`data[0]` succeeded). Tag 125 first takes `data[13..]` — panicking when the
input is shorter than 13 bytes — then the always-in-bounds `data[1..9]` and
`data[9..13]`. Tag 124 takes `data[1..9]` (panics below 9 bytes) then
`data[9..13]` (panics below 13). Any other tag is `Err(())`. -/
def Action.fromBytes (data : List Nat) : DecodeResult :=
  match data with
  | [] => .crash
  | b :: rest =>
    if b = 127 then
      let name := fromUtf8Lossy rest
      .ok (some (ProjectKey.new name)) (.ProjectAdd name)
    else if b = 126 then
      let name := fromUtf8Lossy rest
      .ok (some (ProjectKey.new name)) (.ProjectDel name)
    else if b = 125 then
      if rest.length < 12 then .crash
      else
        let name := fromUtf8Lossy (rest.drop 12)
        let ts := i64FromLeBytes (rest.take 8)
        let tz := i32FromLeBytes ((rest.drop 8).take 4)
        .ok (some (ProjectKey.new name)) (.RecordStart name ts tz)
    else if b = 124 then
      if rest.length < 8 then .crash
      else if rest.length < 12 then .crash
      else
        let ts := i64FromLeBytes (rest.take 8)
        let tz := i32FromLeBytes ((rest.drop 8).take 4)
        .ok none (.RecordStop ts tz)
    else .err

/-- Field-value validity of an `Action` as produced by the program: `ts`
fits `i64` and `tz` fits `i32` (any Lean `String` is a valid Rust `String`).
Decidable so witnesses can check it on concrete actions. -/
def Action.wf : Action → Prop
  | .ProjectAdd _ => True
  | .ProjectDel _ => True
  | .RecordStart _ ts tz =>
    (-(2 ^ 63) ≤ ts ∧ ts < 2 ^ 63) ∧ (-(2 ^ 31) ≤ tz ∧ tz < 2 ^ 31)
  | .RecordStop ts tz =>
    (-(2 ^ 63) ≤ ts ∧ ts < 2 ^ 63) ∧ (-(2 ^ 31) ≤ tz ∧ tz < 2 ^ 31)

instance : DecidablePred Action.wf := by
  intro a
  cases a <;> simp only [Action.wf] <;> infer_instance

/-- The project key an entry pertains to, as produced by decoding: the
lower-cased name for the name-carrying variants, none for `RecordStop`. -/
def Action.expectedKey : Action → Option ProjectKey
  | .ProjectAdd name => some (ProjectKey.new name)
  | .ProjectDel name => some (ProjectKey.new name)
  | .RecordStart name _ _ => some (ProjectKey.new name)
  | .RecordStop _ _ => none

/-! ## BTreeMap<ProjectKey, Project> as a sorted association list -/

/-- `BTreeMap::get`-style lookup. -/
def mapGet : List (ProjectKey × Project) → ProjectKey → Option Project
  | [], _ => none
  | (k', v) :: rest, k => if k' = k then some v else mapGet rest k

/-- Insert at the key's ordered position (matching `BTreeMap`'s key order,
lexicographic on the key string), replacing an existing binding. -/
def mapInsert : List (ProjectKey × Project) → ProjectKey → Project →
    List (ProjectKey × Project)
  | [], k, v => [(k, v)]
  | (k', v') :: rest, k, v =>
    match compare k.key k'.key with
    | .lt => (k, v) :: (k', v') :: rest
    | .eq => (k, v) :: rest
    | .gt => (k', v') :: mapInsert rest k v

/-- `BTreeMap` entry removal. -/
def mapRemove : List (ProjectKey × Project) → ProjectKey →
    List (ProjectKey × Project)
  | [], _ => []
  | (k', v') :: rest, k => if k' = k then rest else (k', v') :: mapRemove rest k

/-! ## src/db/storage/fs.rs — FsStorage and replay framing -/

/-- `FsStorage` (fs.rs): the WAL file content as bytes, plus an environment
flag saying whether the underlying write/flush I/O fails (the `Err` paths of
`write_all`/`flush`). The lock file and directory checks concern process
startup only and carry no replayable state. -/
structure FsStorage where
  log : List Nat
  failAppend : Bool
deriving DecidableEq, Repr

/-- `FsStorage::record_action` (fs.rs lines 62–71): serialize, `write_all`,
`flush`; on success the bytes are appended to the WAL, on I/O failure
(`failAppend`) nothing is written and `Err(())` is returned (`none`). -/
def FsStorage.recordAction (s : FsStorage) (a : Action) : Option FsStorage :=
  if s.failAppend then none
  else some { s with log := s.log ++ a.toBytes }

/-- `BufRead::read_until(b'\n')` framing of `ReplayLog` (fs.rs lines
120–133): split the WAL into chunks, each including its `\n` delimiter; a
final partial line (no trailing delimiter) is returned as-is by
`read_until`. -/
def splitWalAux : List Nat → List Nat → List (List Nat)
  | [], acc => if acc.isEmpty then [] else [acc]
  | b :: rest, acc =>
    if b = 10 then (acc ++ [10]) :: splitWalAux rest []
    else splitWalAux rest (acc ++ [b])

/-- The chunk sequence `ReplayLog` reads from offset 0 of the WAL. -/
def splitWal (log : List Nat) : List (List Nat) :=
  splitWalAux log []

/-! ## Action::apply (action.rs lines 32–68) -/

/-- Result of `Action::apply` on a map entry: the affected `Project`
(the returned `Cow<Project>`) with the updated map, `err` for
`Err(SomeDbError)`, or `crash` for the source's `expect` panics. -/
inductive ApplyOut where
  | ok (p : Project) (m : List (ProjectKey × Project))
  | err
  | crash
deriving DecidableEq, Repr

/-- `Action::apply(self, entry)` (action.rs lines 32–68), with the entry
resolved to a lookup of `key` in the map. `ProjectAdd` inserts into a vacant
entry; `ProjectDel` removes an occupied one (returning the removed project,
`Cow::Owned`); `RecordStart` appends an open record via
`Project::add_record`, whose rejection is `.expect("Replay start failed")` —
a panic; `RecordStop` closes via `Project::end_at`, whose own
`expect("No record present!")` and the `.expect("Replay end failed")` are
panics; an occupied/vacant mismatch is `Err(SomeDbError)`. The timestamp
`Utc.timestamp(ts, 0).with_timezone(west(tz))` denotes the instant `ts`. -/
def Action.applyA (a : Action) (key : ProjectKey) (m : List (ProjectKey × Project)) :
    ApplyOut :=
  match a with
  | .ProjectAdd name =>
    match mapGet m key with
    | none =>
      let p := Project.new name
      .ok p (mapInsert m key p)
    | some _ => .err
  | .ProjectDel _ =>
    match mapGet m key with
    | some p => .ok p (mapRemove m key)
    | none => .err
  | .RecordStart _ ts _ =>
    match mapGet m key with
    | some p =>
      match p.addRecord (Record.startedOn ts) with
      | .ok (_, p2) => .ok p2 (mapInsert m key p2)
      | .error _ => .crash
    | none => .err
  | .RecordStop ts _ =>
    match mapGet m key with
    | some p =>
      match p.endAt ts with
      | some (.ok (_, p2)) => .ok p2 (mapInsert m key p2)
      | some (.error _) => .crash
      | none => .crash
    | none => .err

/-! ## src/db/database.rs — Database -/

/-- `Database` (database.rs lines 39–43). -/
structure Database where
  storage : FsStorage
  projects : List (ProjectKey × Project)
  lastProject : Option ProjectKey
deriving DecidableEq, Repr

/-- Result of a `Database` operation returning `Result<Cow<Project>,
SomeDbError>`: the project view with the post-call database, an error with
the post-call database (in-place mutations made before the failure
persist), or a panic. -/
inductive DbOut where
  | ok (p : Project) (db : Database)
  | err (db : Database)
  | crash
deriving DecidableEq, Repr

/-- Result of `Database::silent_stop`: `Ok(Option<Cow<Project>>)`. -/
inductive SilentOut where
  | ok (p : Option Project) (db : Database)
  | err (db : Database)
  | crash
deriving DecidableEq, Repr

/-- `Database::current_project` (database.rs lines 109–114). -/
def Database.currentProject (db : Database) : Option Project :=
  match db.lastProject with
  | some key => mapGet db.projects key
  | none => none

/-- `Database::apply_action` (database.rs lines 174–183): append to the WAL
first; only on a successful append apply to the map. On append failure the
map is untouched; on apply failure the appended bytes remain. -/
def Database.applyAction (db : Database) (key : ProjectKey) (a : Action) : DbOut :=
  match db.storage.recordAction a with
  | none => .err db
  | some st2 =>
    match a.applyA key db.projects with
    | .ok p m2 => .ok p { db with storage := st2, projects := m2 }
    | .err => .err { db with storage := st2 }
    | .crash => .crash

/-- `Database::add_project` (database.rs lines 84–90). -/
def Database.addProject (db : Database) (name : String) : DbOut :=
  let key := ProjectKey.new name
  match mapGet db.projects key with
  | none => db.applyAction key (.ProjectAdd name)
  | some _ => .err db

/-- `Database::remove_project` (database.rs lines 92–101); the source
constructs `ProjectDel` from the `ProjectKey`, so the action's name field
carries the normalized key string. -/
def Database.removeProject (db : Database) (name : String) : DbOut :=
  let key := ProjectKey.new name
  match mapGet db.projects key with
  | some _ => db.applyAction key (.ProjectDel key.key)
  | none => .err db

/-- `Database::silent_stop` (database.rs lines 146–172). Note the source's
`self.last_project.take()`: the active pointer is cleared *before* any
append is attempted. `now`/`tz` stand for the call's `Local::now()`. -/
def Database.silentStop (db : Database) (now tz : Int) : SilentOut :=
  match db.lastProject with
  | none => .ok none db
  | some key =>
    let db1 := { db with lastProject := none }
    match mapGet db1.projects key with
    | some p =>
      if p.inFlight then
        match db1.applyAction key (.RecordStop now tz) with
        | .ok p2 db2 => .ok (some p2) db2
        | .err db2 => .err db2
        | .crash => .crash
      else .ok (some p) db1
    | none => .err db1

/-- `Database::stop` (database.rs lines 139–144): errs when nothing is
current, otherwise `silent_stop().map(|o| o.unwrap())` — the `unwrap` of a
`None` is a panic. -/
def Database.stop (db : Database) (now tz : Int) : DbOut :=
  match db.currentProject with
  | none => .err db
  | some _ =>
    match db.silentStop now tz with
    | .ok (some p) db2 => .ok p db2
    | .ok none _ => .crash
    | .err db2 => .err db2
    | .crash => .crash

/-- `Database::start_on` (database.rs lines 116–137): silent-stop whatever
is active, then append+apply `RecordStart` for the target key (the source
passes the `ProjectKey`, so the action's name field carries the key
string). The silent stop and the start each read `Local::now()`, passed
here as `(nowS, tzS)` and `(nowR, tzR)`. The active pointer is *not*
updated. -/
def Database.startOn (db : Database) (name : String) (nowS tzS nowR tzR : Int) : DbOut :=
  match db.silentStop nowS tzS with
  | .ok _ db1 =>
    let key := ProjectKey.new name
    match mapGet db1.projects key with
    | some _ => db1.applyAction key (.RecordStart key.key nowR tzR)
    | none => .err db1
  | .err db1 => .err db1
  | .crash => .crash

/-- One replay step of `load_all` (database.rs lines 186–197) for a decoded
`(key, action)` pair over `(map, last_project)`: a `RecordStop` entry takes
the current `last_project` as its key (`expect("We need a key here!")`
panics when there is none); the action is applied
(`expect("Something is off with our WAL!")` panics on `Err`), and when the
affected project is in flight the active pointer is set to its key. -/
def loadStep (key? : Option ProjectKey) (a : Action)
    (m : List (ProjectKey × Project)) (lastP : Option ProjectKey) :
    Option (List (ProjectKey × Project) × Option ProjectKey) :=
  match key?, lastP with
  | some key, _ => loadApply key a m lastP
  | none, some key => loadApply key a m none
  | none, none => none
where
  loadApply (key : ProjectKey) (a : Action) (m : List (ProjectKey × Project))
      (lastP1 : Option ProjectKey) :
      Option (List (ProjectKey × Project) × Option ProjectKey) :=
    match a.applyA key m with
    | .ok p m2 => some (m2, if p.inFlight then some (ProjectKey.new p.name) else lastP1)
    | .err => none
    | .crash => none

/-- The replay loop of `load_all` over the WAL's chunks: each chunk is
decoded through `Action::from_bytes(&data[..size - 1])` (the delimiter is
stripped, `ReplayLog::next`, fs.rs line 129) with the decode `unwrap` and
all apply panics modelled as `none`. -/
def loadAllGo : List (List Nat) → List (ProjectKey × Project) → Option ProjectKey →
    Option (List (ProjectKey × Project) × Option ProjectKey)
  | [], m, lastP => some (m, lastP)
  | chunk :: rest, m, lastP =>
    match Action.fromBytes chunk.dropLast with
    | .ok key? a =>
      match loadStep key? a m lastP with
      | some (m2, lastP2) => loadAllGo rest m2 lastP2
      | none => none
    | .err => none
    | .crash => none

/-- `Database::open` (database.rs lines 67–82) restricted to its replay
content: start from an empty map and no active pointer, replay the given WAL
bytes; `none` is the fatal path (`ErrorKind::InvalidData` or a replay
panic). -/
def openDb (log : List Nat) (failAppend : Bool) : Option Database :=
  (loadAllGo (splitWal log) [] none).map fun mp =>
    { storage := { log := log, failAppend := failAppend }
      projects := mp.1
      lastProject := mp.2 }

/-! ## Invariants of a Project's record sequence (spec §3 Project) -/

/-- All records except the trailing one are closed. -/
def recordsClosedInit (rs : List Record) : Prop :=
  ∀ r ∈ rs.dropLast, r.isOnGoing = false

/-- Records are ordered by `start` ascending. -/
def recordsSorted (rs : List Record) : Prop :=
  rs.Pairwise fun a b => a.start ≤ b.start

/-- The Project invariant: at most the last record is open, and records are
in start-ascending order. Decidable so witnesses can check it. -/
def projInv (p : Project) : Prop :=
  recordsClosedInit p.records ∧ recordsSorted p.records

instance (rs : List Record) : Decidable (recordsClosedInit rs) := by
  unfold recordsClosedInit
  infer_instance

instance (rs : List Record) : Decidable (recordsSorted rs) := by
  unfold recordsSorted
  exact List.instDecidablePairwise rs

instance (p : Project) : Decidable (projInv p) := by
  unfold projInv
  infer_instance

/-! ## Concrete fixtures used by the closed theorems below -/

/-- A database holding the two empty projects "A" and "B", nothing active,
an empty WAL, and working I/O. -/
def dbTwo : Database :=
  { storage := { log := [], failAppend := false }
    projects := [(ProjectKey.new "A", Project.new "A"), (ProjectKey.new "B", Project.new "B")]
    lastProject := none }

/-- `dbTwo` after `start_on("A")` at instant 10: the `RecordStart` was
logged and applied, and — as the source never assigns `last_project` in
`start_on` — the active pointer is still `none`. -/
def dbTwoAfterA : Database :=
  { storage := { log := Action.toBytes (.RecordStart "a" 10 0), failAppend := false }
    projects := [(ProjectKey.new "A", { name := "A", records := [Record.startedOn 10] }),
                 (ProjectKey.new "B", Project.new "B")]
    lastProject := none }

/-- `dbTwoAfterA` after `start_on("B")` at instant 20: project A's record
was not auto-closed and the pointer is still `none`. -/
def dbTwoAfterAB : Database :=
  { storage :=
      { log := Action.toBytes (.RecordStart "a" 10 0) ++ Action.toBytes (.RecordStart "b" 20 0),
        failAppend := false }
    projects := [(ProjectKey.new "A", { name := "A", records := [Record.startedOn 10] }),
                 (ProjectKey.new "B", { name := "B", records := [Record.startedOn 20] })]
    lastProject := none }

/-- A database with one project "a" holding a single open record, active,
whose storage fails every append. -/
def dbFailing : Database :=
  { storage := { log := [], failAppend := true }
    projects := [(ProjectKey.new "a", { name := "a", records := [Record.startedOn 0] })]
    lastProject := some (ProjectKey.new "a") }

/-! ## Claims -/

/-- C1 — the spec's case analysis for `Record::crop` does not hold of the
source: the `Less` and `Equal` arms of `match self.start.cmp(&new_end)` are
interchanged relative to it. On an open record started at 0, cropping at 10
(a positive duration, which the spec closes with `Ended`) is rejected with
`NoDuration`, while cropping at 0 (the zero-duration instant the spec
rejects with `NoDuration`) closes the record with `Ended`; only the
`new_end < start ⇒ NegativeDuration` arm agrees. -/
theorem crop_case_analysis_swapped :
    (Record.startedOn 0).crop 10 = .error .NoDuration ∧
    (Record.startedOn 0).crop 0 =
      .ok (.Ended, { start := 0, endTime := some 0, billable := true }) ∧
    (Record.startedOn 10).crop 0 = .error .NegativeDuration :=
  ⟨rfl, rfl, rfl⟩

/-- C2 — the end-to-end scenario fails on the source: starting on "A" at
instant 10 and then on "B" at instant 20 (both projects existing and empty,
nothing active, I/O healthy) leaves project A's single record *open* (no
auto-close at B's start, since `start_on` never records the active project),
project B's single record open, and `current_project()` is `none`, not
project B. -/
theorem start_on_twice_skips_auto_stop :
    dbTwo.startOn "A" 0 0 10 0 =
      .ok { name := "A", records := [Record.startedOn 10] } dbTwoAfterA ∧
    dbTwoAfterA.startOn "B" 20 0 20 0 =
      .ok { name := "B", records := [Record.startedOn 20] } dbTwoAfterAB ∧
    (Record.startedOn 10).isOnGoing = true ∧
    dbTwoAfterAB.currentProject = none :=
  ⟨rfl, rfl, rfl, rfl⟩

/-- C8 counterexample — the claim reads `Project::end_at` on an empty
project as returning an error to the caller; in the source it is
`records.last_mut().expect("No record present!")`, a panic, so no error
value is ever produced at the concrete empty project. -/
theorem endAt_empty_returns_no_error :
    ¬ ∃ e, (Project.new "a").endAt 0 = some (.error e) := by
  intro ⟨e, h⟩
  simp [Project.endAt, Project.new] at h

/-- C8 (amended) — for every project with an empty record sequence and
every timestamp, `Project::end_at` fails by panicking
(`expect("No record present!")`, modelled as `none`), not by returning an
error value. -/
theorem endAt_empty_panics (p : Project) (t : Int) (h : p.records = []) :
    p.endAt t = none := by
  unfold Project.endAt
  rw [h]
  rfl

/-- C8 witness. -/
theorem endAt_empty_panics_witness : (Project.new "a").endAt 0 = none :=
  endAt_empty_panics (Project.new "a") 0 rfl

/-- C10 — `Record`'s ordering is strictly coarser than its equality: two
records with the same start — one open, one closed at 10, compared at wall
clock 20 — compare `Equal` under `Ord` (which looks at `start` alone) yet
are unequal under `PartialEq` (which also compares duration and open/closed
status). -/
theorem record_ord_coarser_than_eq :
    ∃ (a b : Record) (now : Int),
      Record.cmp a b = .eq ∧ Record.beq now a b = false :=
  ⟨{ start := 0, endTime := none, billable := true },
   { start := 0, endTime := some 10, billable := true }, 20, rfl, rfl⟩

/-! ### Helper lemmas about `Record.crop` -/

theorem crop_ok_start_eq {r : Record} {t : Int} {o : RecordEnded} {r2 : Record}
    (h : r.crop t = .ok (o, r2)) : r.start = t ∧ r2.start = r.start := by
  unfold Record.crop at h
  rcases hc : compare r.start t with _ | _ | _ <;> rw [hc] at h
  · cases h
  · refine ⟨compare_eq_iff_eq.mp hc, ?_⟩
    rcases he : r.endTime with _ | e <;> rw [he] at h
    · injection h with h'
      rw [Prod.mk.injEq] at h'
      rw [← h'.2]
    · dsimp only at h
      split_ifs at h <;>
      · injection h with h'
        rw [Prod.mk.injEq] at h'
        rw [← h'.2]
  · cases h

theorem crop_ok_closed {r : Record} {t : Int} {o : RecordEnded} {r2 : Record}
    (h : r.crop t = .ok (o, r2)) : r2.isOnGoing = false := by
  unfold Record.crop at h
  rcases hc : compare r.start t with _ | _ | _ <;> rw [hc] at h
  · cases h
  · rcases he : r.endTime with _ | e <;> rw [he] at h
    · injection h with h'
      rw [Prod.mk.injEq] at h'
      rw [← h'.2]
      rfl
    · dsimp only at h
      split_ifs at h <;>
      · injection h with h'
        rw [Prod.mk.injEq] at h'
        rw [← h'.2]
        simp [Record.isOnGoing, he]
  · cases h

/-- C3 — the outcome classification of `Project::add_record`: `Started` on a
project with no records; when a trailing record exists and its crop at the
new record's start returns `Ended` (cleanly ended), the result is
`Switched`; when the crop shrinks it (`Cropped`), the result is `Cropped`;
and when the crop rejects, `add_record` returns the Record layer's own error
and appends nothing (the resulting value carries no updated project, and the
`Err` arms of `Record::crop` mutate nothing). -/
theorem addRecord_outcome_classification (p : Project) (r : Record) :
    (p.records = [] →
      p.addRecord r = .ok (.Started, { p with records := p.records ++ [r] })) ∧
    (∀ last, p.records.getLast? = some last →
      (∀ l2, last.crop r.start = .ok (.Ended, l2) →
        p.addRecord r = .ok (.Switched, { p with records := p.records.dropLast ++ [l2, r] })) ∧
      (∀ l2, last.crop r.start = .ok (.Cropped, l2) →
        p.addRecord r = .ok (.Cropped, { p with records := p.records.dropLast ++ [l2, r] })) ∧
      (∀ e, last.crop r.start = .error e → p.addRecord r = .error e)) := by
  constructor
  · intro hnil
    unfold Project.addRecord
    rw [hnil]
    rfl
  · intro last hlast
    refine ⟨fun l2 hcrop => ?_, fun l2 hcrop => ?_, fun e hcrop => ?_⟩ <;>
      · unfold Project.addRecord
        rw [hlast]
        dsimp only
        rw [hcrop]

/-- C3 witness: the `Started`, `Switched`, `Cropped` and error cases each
checked at a concrete project. -/
theorem addRecord_outcome_classification_witness :
    (Project.new "x").addRecord (Record.startedOn 5) =
      .ok (.Started, { name := "x", records := [Record.startedOn 5] }) ∧
    (Project.mk "y" [Record.startedOn 5]).addRecord (Record.startedOn 5) =
      .ok (.Switched, Project.mk "y" [{ start := 5, endTime := some 5, billable := true }, Record.startedOn 5]) ∧
    (Project.mk "z" [{ start := 5, endTime := some 9, billable := true }]).addRecord (Record.startedOn 5) =
      .ok (.Cropped, Project.mk "z" [{ start := 5, endTime := some 5, billable := true }, Record.startedOn 5]) ∧
    (Project.mk "w" [Record.startedOn 0]).addRecord (Record.startedOn 5) =
      .error .NoDuration :=
  ⟨(addRecord_outcome_classification (Project.new "x") (Record.startedOn 5)).1 rfl,
   ((addRecord_outcome_classification (Project.mk "y" [Record.startedOn 5])
      (Record.startedOn 5)).2 (Record.startedOn 5) rfl).1 _ rfl,
   ((addRecord_outcome_classification
      (Project.mk "z" [{ start := 5, endTime := some 9, billable := true }])
      (Record.startedOn 5)).2 _ rfl).2.1 _ rfl,
   ((addRecord_outcome_classification (Project.mk "w" [Record.startedOn 0])
      (Record.startedOn 5)).2 _ rfl).2.2 _ rfl⟩

/-! ### Invariant preservation (C7) -/

theorem addRecord_preserves {p : Project} {r : Record} {res : RecordAdded} {p' : Project}
    (hinv : projInv p) (h : p.addRecord r = .ok (res, p')) :
    projInv p' ∧ p'.records.map Record.start = p.records.map Record.start ++ [r.start] := by
  obtain ⟨hclosed, hsorted⟩ := hinv
  unfold Project.addRecord at h
  cases hlast : p.records.getLast? with
  | none =>
    rw [hlast] at h
    dsimp only at h
    injection h with h'
    rw [Prod.mk.injEq] at h'
    obtain ⟨-, hp'⟩ := h'
    have hnil : p.records = [] := List.getLast?_eq_none_iff.mp hlast
    have hrecs : p'.records = [r] := by rw [← hp']; simp [hnil]
    refine ⟨⟨?_, ?_⟩, ?_⟩
    · unfold recordsClosedInit
      rw [hrecs]
      intro x hx
      simp at hx
    · unfold recordsSorted
      rw [hrecs]
      exact List.pairwise_singleton _ _
    · rw [hrecs, hnil]
      simp
  | some last =>
    rw [hlast] at h
    dsimp only at h
    cases hcrop : last.crop r.start with
    | error e =>
      rw [hcrop] at h
      cases h
    | ok ol2 =>
      obtain ⟨o, l2⟩ := ol2
      rw [hcrop] at h
      dsimp only at h
      injection h with h'
      rw [Prod.mk.injEq] at h'
      obtain ⟨-, hp'⟩ := h'
      obtain ⟨hse, hsl⟩ := crop_ok_start_eq hcrop
      have hcl := crop_ok_closed hcrop
      have hdecomp : p.records.dropLast ++ [last] = p.records :=
        List.dropLast_append_getLast? last (by simp [hlast])
      have hrecs : p'.records = p.records.dropLast ++ [l2, r] := by rw [← hp']
      have hdl : (p.records.dropLast ++ [l2, r]).dropLast = p.records.dropLast ++ [l2] := by
        have hsplit : p.records.dropLast ++ [l2, r] = (p.records.dropLast ++ [l2]) ++ [r] := by
          simp
        rw [hsplit]
        exact List.dropLast_concat
      have hs := hsorted
      unfold recordsSorted at hs
      rw [← hdecomp, List.pairwise_append] at hs
      obtain ⟨hs1, -, hs3⟩ := hs
      refine ⟨⟨?_, ?_⟩, ?_⟩
      · unfold recordsClosedInit
        rw [hrecs, hdl]
        intro x hx
        rcases List.mem_append.mp hx with hx1 | hx2
        · exact hclosed x hx1
        · rw [List.mem_singleton.mp hx2]
          exact hcl
      · unfold recordsSorted
        rw [hrecs, List.pairwise_append]
        refine ⟨hs1, ?_, ?_⟩
        · refine List.Pairwise.cons ?_ (List.pairwise_singleton _ _)
          intro b hb
          rw [List.mem_singleton.mp hb, hsl, hse]
        · intro a ha b hb
          have hins : a.start ≤ last.start := hs3 a ha last (by simp)
          rcases List.mem_cons.mp hb with hb1 | hb2
          · rw [hb1, hsl]
            exact hins
          · rw [List.mem_singleton.mp hb2, ← hse]
            exact hins
      · rw [hrecs]
        have hold : p.records.map Record.start
            = p.records.dropLast.map Record.start ++ [last.start] := by
          rw [← hdecomp]
          simp
        rw [hold]
        simp [hsl, hse]

theorem endAt_preserves {p : Project} {t : Int} {out : RecordEnded} {p' : Project}
    (hinv : projInv p) (h : p.endAt t = some (.ok (out, p'))) :
    projInv p' ∧ p'.records.map Record.start = p.records.map Record.start := by
  obtain ⟨hclosed, hsorted⟩ := hinv
  unfold Project.endAt at h
  cases hlast : p.records.getLast? with
  | none =>
    rw [hlast] at h
    cases h
  | some last =>
    rw [hlast] at h
    dsimp only at h
    cases hcrop : last.crop t with
    | error e =>
      rw [hcrop] at h
      cases h
    | ok ol2 =>
      obtain ⟨o, l2⟩ := ol2
      rw [hcrop] at h
      dsimp only [Except.map] at h
      injection h with h'
      injection h' with h''
      rw [Prod.mk.injEq] at h''
      obtain ⟨-, hp'⟩ := h''
      obtain ⟨-, hsl⟩ := crop_ok_start_eq hcrop
      have hdecomp : p.records.dropLast ++ [last] = p.records :=
        List.dropLast_append_getLast? last (by simp [hlast])
      have hrecs : p'.records = p.records.dropLast ++ [l2] := by rw [← hp']
      have hs := hsorted
      unfold recordsSorted at hs
      rw [← hdecomp, List.pairwise_append] at hs
      obtain ⟨hs1, -, hs3⟩ := hs
      refine ⟨⟨?_, ?_⟩, ?_⟩
      · unfold recordsClosedInit
        rw [hrecs, List.dropLast_concat]
        intro x hx
        exact hclosed x hx
      · unfold recordsSorted
        rw [hrecs, List.pairwise_append]
        refine ⟨hs1, List.pairwise_singleton _ _, ?_⟩
        intro a ha b hb
        rw [List.mem_singleton.mp hb, hsl]
        exact hs3 a ha last (by simp)
      · rw [hrecs, ← hdecomp]
        simp [hsl]

/-- C7 — every `Project` operation (`new`, `start`, `add_record`, `end_at`)
preserves the invariant that at most the trailing record is open (all
earlier ones closed) and that records are in start-ascending order; no
record is reordered or removed: the sequence of starts is preserved exactly
(extended by the new record's start for `start`/`add_record`). -/
theorem project_ops_preserve_record_invariants :
    (∀ name, projInv (Project.new name)) ∧
    (∀ (p : Project) (r : Record) (res : RecordAdded) (p' : Project),
      projInv p → p.addRecord r = .ok (res, p') →
      projInv p' ∧ p'.records.map Record.start = p.records.map Record.start ++ [r.start]) ∧
    (∀ (p : Project) (now : Int) (res : RecordAdded) (p' : Project),
      projInv p → p.start now = .ok (res, p') →
      projInv p' ∧ p'.records.map Record.start = p.records.map Record.start ++ [now]) ∧
    (∀ (p : Project) (t : Int) (out : RecordEnded) (p' : Project),
      projInv p → p.endAt t = some (.ok (out, p')) →
      projInv p' ∧ p'.records.map Record.start = p.records.map Record.start) := by
  refine ⟨?_, ?_, ?_, ?_⟩
  · intro name
    exact ⟨fun x hx => by simp [Project.new] at hx, List.Pairwise.nil⟩
  · intro p r res p' hinv h
    exact addRecord_preserves hinv h
  · intro p now res p' hinv h
    exact addRecord_preserves hinv h
  · intro p t out p' hinv h
    exact endAt_preserves hinv h

/-- C7 witness: the invariant checked through a concrete `start` on a fresh
project followed by an `end_at`. -/
theorem project_ops_preserve_record_invariants_witness :
    projInv { name := "x", records := [{ start := 3, endTime := some 3, billable := true }] } ∧
    (List.map Record.start
        [{ start := 3, endTime := some 3, billable := true }] = [(3 : Int)]) :=
  ⟨((project_ops_preserve_record_invariants.2.2.2
      (Project.mk "x" [Record.startedOn 3]) 3 .Ended
      (Project.mk "x" [{ start := 3, endTime := some 3, billable := true }])
      ⟨by decide, by decide⟩ rfl).1),
   by decide⟩

/-! ### Write-ahead discipline under append failure (C4) -/

/-- C4 counterexample — with an active in-flight project and failing
storage, `stop()` returns an error but the active-project pointer has been
cleared (`silent_stop`'s `self.last_project.take()` runs before the append),
so the in-memory state is *not* left unchanged as the claim requires. -/
theorem stop_append_failure_clears_active_pointer :
    ∃ db2, dbFailing.stop 5 0 = .err db2 ∧ db2.lastProject ≠ dbFailing.lastProject :=
  ⟨{ storage := { log := [], failAppend := true },
     projects := [(ProjectKey.new "a", { name := "a", records := [Record.startedOn 0] })],
     lastProject := none },
   rfl, by decide⟩

/-- C4 (amended) — each mutation appends before applying, and an append
failure leaves the project *map* and the WAL unchanged and surfaces as an
error; `add_project`/`remove_project` leave the whole database unchanged,
while `start_on`/`stop` may already have cleared the active-project pointer
(taken by `silent_stop` before the append) — and `stop` on an active but
not-in-flight project returns successfully without appending at all. -/
theorem append_failure_preserves_map (db : Database)
    (hfail : db.storage.failAppend = true) :
    (∀ name, db.addProject name = .err db) ∧
    (∀ name, db.removeProject name = .err db) ∧
    (∀ name nS zS nR zR, ∃ db2, db.startOn name nS zS nR zR = .err db2 ∧
      db2.projects = db.projects ∧ db2.storage = db.storage) ∧
    (∀ now tz, ∃ db2, (db.stop now tz = .err db2 ∨ ∃ p, db.stop now tz = .ok p db2) ∧
      db2.projects = db.projects ∧ db2.storage = db.storage) := by
  have hra : ∀ a : Action, db.storage.recordAction a = none := fun a => by
    simp [FsStorage.recordAction, hfail]
  refine ⟨?_, ?_, ?_, ?_⟩
  · intro name
    cases hget : mapGet db.projects (ProjectKey.new name) <;>
      simp [Database.addProject, Database.applyAction, hget, hra]
  · intro name
    cases hget : mapGet db.projects (ProjectKey.new name) <;>
      simp [Database.removeProject, Database.applyAction, hget, hra]
  · intro name nS zS nR zR
    cases hlp : db.lastProject with
    | none =>
      cases hget : mapGet db.projects (ProjectKey.new name) with
      | none =>
        exact ⟨db, by simp [Database.startOn, Database.silentStop, hlp, hget], rfl, rfl⟩
      | some p =>
        exact ⟨db, by simp [Database.startOn, Database.silentStop, Database.applyAction,
          hlp, hget, hra], rfl, rfl⟩
    | some key =>
      cases hget : mapGet db.projects key with
      | none =>
        exact ⟨{ db with lastProject := none },
          by simp [Database.startOn, Database.silentStop, hlp, hget], rfl, rfl⟩
      | some p =>
        cases hfl : p.inFlight with
        | true =>
          exact ⟨{ db with lastProject := none },
            by simp [Database.startOn, Database.silentStop, Database.applyAction,
              FsStorage.recordAction, hfail, hlp, hget, hfl], rfl, rfl⟩
        | false =>
          cases hget2 : mapGet db.projects (ProjectKey.new name) with
          | none =>
            exact ⟨{ db with lastProject := none },
              by simp [Database.startOn, Database.silentStop, hlp, hget, hfl, hget2], rfl, rfl⟩
          | some q =>
            exact ⟨{ db with lastProject := none },
              by simp [Database.startOn, Database.silentStop, Database.applyAction,
                FsStorage.recordAction, hfail, hlp, hget, hfl, hget2], rfl, rfl⟩
  · intro now tz
    cases hlp : db.lastProject with
    | none =>
      refine ⟨db, Or.inl ?_, rfl, rfl⟩
      simp [Database.stop, Database.currentProject, hlp]
    | some key =>
      cases hget : mapGet db.projects key with
      | none =>
        refine ⟨db, Or.inl ?_, rfl, rfl⟩
        simp [Database.stop, Database.currentProject, hlp, hget]
      | some p =>
        cases hfl : p.inFlight with
        | true =>
          refine ⟨{ db with lastProject := none }, Or.inl ?_, rfl, rfl⟩
          simp [Database.stop, Database.currentProject, Database.silentStop,
            Database.applyAction, FsStorage.recordAction, hfail, hlp, hget, hfl]
        | false =>
          refine ⟨{ db with lastProject := none }, Or.inr ⟨p, ?_⟩, rfl, rfl⟩
          simp [Database.stop, Database.currentProject, Database.silentStop, hlp, hget, hfl]

/-- C4 witness: the amended statement applied to `dbFailing`. -/
theorem append_failure_preserves_map_witness :
    dbFailing.storage.failAppend = true ∧
    dbFailing.addProject "q" = .err dbFailing ∧
    ∃ db2, (dbFailing.stop 5 0 = .err db2 ∨ ∃ p, dbFailing.stop 5 0 = .ok p db2) ∧
      db2.projects = dbFailing.projects ∧ db2.storage = dbFailing.storage :=
  ⟨rfl, (append_failure_preserves_map dbFailing rfl).1 "q",
    (append_failure_preserves_map dbFailing rfl).2.2.2 5 0⟩

/-! ### Partiality of Action::from_bytes (C9) -/

/-- C9 — `Action::from_bytes` is not total: the empty byte string panics
(indexing `data[0]`), an entry whose first byte is tag 125 or 124 but which
is shorter than 13 bytes panics (out-of-range slices `data[13..]` /
`data[9..13]`) instead of producing the decode error, and `Err` arises
exactly for an unrecognized first tag byte on a non-empty input. -/
theorem fromBytes_partiality :
    Action.fromBytes [] = .crash ∧
    (∀ (data : List Nat), data.length < 13 →
      (data.head? = some 125 ∨ data.head? = some 124) →
      Action.fromBytes data = .crash) ∧
    (∀ (data : List Nat), data ≠ [] →
      (Action.fromBytes data = .err ↔
        ∀ b, data.head? = some b → b ≠ 127 ∧ b ≠ 126 ∧ b ≠ 125 ∧ b ≠ 124)) := by
  refine ⟨rfl, ?_, ?_⟩
  · intro data hlen htag
    match data with
    | [] => simp at htag
    | b :: rest =>
      simp only [List.head?_cons, Option.some.injEq] at htag
      simp only [List.length_cons] at hlen
      unfold Action.fromBytes
      dsimp only
      rcases htag with h125 | h124
      · subst h125
        rw [if_neg (by decide), if_neg (by decide), if_pos rfl, if_pos (by omega)]
      · subst h124
        rw [if_neg (by decide), if_neg (by decide), if_neg (by decide), if_pos rfl]
        by_cases h8 : rest.length < 8
        · rw [if_pos h8]
        · rw [if_neg h8, if_pos (by omega)]
  · intro data hne
    match data with
    | b :: rest =>
      simp only [List.head?_cons, Option.some.injEq]
      by_cases h127 : b = 127
      · subst h127
        simp [Action.fromBytes]
      · by_cases h126 : b = 126
        · subst h126
          simp [Action.fromBytes]
        · by_cases h125 : b = 125
          · subst h125
            constructor
            · intro herr
              exfalso
              unfold Action.fromBytes at herr
              dsimp only at herr
              rw [if_neg (by decide), if_neg (by decide), if_pos rfl] at herr
              split_ifs at herr
            · intro hall
              exact absurd rfl (hall 125 rfl).2.2.1
          · by_cases h124 : b = 124
            · subst h124
              constructor
              · intro herr
                exfalso
                unfold Action.fromBytes at herr
                dsimp only at herr
                rw [if_neg (by decide), if_neg (by decide), if_neg (by decide),
                  if_pos rfl] at herr
                split_ifs at herr
              · intro hall
                exact absurd rfl (hall 124 rfl).2.2.2
            · constructor
              · intro _ b' hb'
                subst hb'
                exact ⟨h127, h126, h125, h124⟩
              · intro _
                unfold Action.fromBytes
                dsimp only
                rw [if_neg h127, if_neg h126, if_neg h125, if_neg h124]

/-- C9 witness: the panic cases and the `Err` case checked on concrete
inputs — the empty input, short 125/124 entries, and tag 99. -/
theorem fromBytes_partiality_witness :
    Action.fromBytes [] = .crash ∧
    Action.fromBytes [125, 1, 2, 3] = .crash ∧
    Action.fromBytes [124, 1, 2, 3, 4, 5, 6, 7, 8, 9] = .crash ∧
    Action.fromBytes [99, 1, 2] = .err :=
  ⟨fromBytes_partiality.1,
   fromBytes_partiality.2.1 [125, 1, 2, 3] (by decide) (Or.inl rfl),
   fromBytes_partiality.2.1 [124, 1, 2, 3, 4, 5, 6, 7, 8, 9] (by decide) (Or.inr rfl),
   (fromBytes_partiality.2.2 [99, 1, 2] (by decide)).mpr (by decide)⟩

/-! ### Wire-format round trip (C5) -/

theorem fromUtf8Lossy_encode (cs : List Char) :
    fromUtf8Lossy (utf8EncodeList cs) = String.mk cs := by
  unfold fromUtf8Lossy
  rw [utf8_roundtrip]

/-- C5 — for every `Action` variant with valid field values (`ts` in `i64`
range, `tz` in `i32` range — including negative UTC offsets — and any
project name, including multi-byte UTF-8), decoding the encoded entry (the
trailing `\n` frame delimiter being stripped by the reader, as
`ReplayLog::next` passes `&data[..size - 1]` and the source's own round-trip
test does) yields the same `Action` and the expected project key: the
lower-cased name for the name-carrying variants, none for `RecordStop`. -/
theorem action_encode_decode_roundtrip (a : Action) (h : a.wf) :
    Action.fromBytes a.toBytes.dropLast = .ok a.expectedKey a := by
  cases a with
  | ProjectAdd name =>
    show Action.fromBytes ((127 :: utf8EncodeList name.data) ++ [10]).dropLast = _
    rw [List.dropLast_concat]
    unfold Action.fromBytes
    dsimp only
    rw [if_pos rfl, fromUtf8Lossy_encode]
    rfl
  | ProjectDel name =>
    show Action.fromBytes ((126 :: utf8EncodeList name.data) ++ [10]).dropLast = _
    rw [List.dropLast_concat]
    unfold Action.fromBytes
    dsimp only
    rw [if_neg (by decide), if_pos rfl, fromUtf8Lossy_encode]
    rfl
  | RecordStart name ts tz =>
    obtain ⟨⟨hts1, hts2⟩, htz1, htz2⟩ := h
    have hlen64 : (i64ToLeBytes ts).length = 8 := natToLeBytes_length 8 _
    have hlen32 : (i32ToLeBytes tz).length = 4 := natToLeBytes_length 4 _
    show Action.fromBytes
      ((125 :: (i64ToLeBytes ts ++ i32ToLeBytes tz ++ utf8EncodeList name.data)) ++ [10]).dropLast
      = _
    rw [List.dropLast_concat]
    unfold Action.fromBytes
    dsimp only
    rw [if_neg (by decide), if_neg (by decide), if_pos rfl]
    rw [if_neg (by simp [hlen64, hlen32]; omega)]
    rw [List.append_assoc, List.take_left' hlen64, List.drop_left' hlen64,
      List.take_left' hlen32]
    have hd : List.drop 12 (i64ToLeBytes ts ++ (i32ToLeBytes tz ++ utf8EncodeList name.data))
        = utf8EncodeList name.data := by
      rw [show (12 : Nat) = 8 + 4 from rfl, ← List.drop_drop, List.drop_left' hlen64,
        List.drop_left' hlen32]
    rw [hd, fromUtf8Lossy_encode, i64_roundtrip ts hts1 hts2, i32_roundtrip tz htz1 htz2]
    rfl
  | RecordStop ts tz =>
    obtain ⟨⟨hts1, hts2⟩, htz1, htz2⟩ := h
    have hlen64 : (i64ToLeBytes ts).length = 8 := natToLeBytes_length 8 _
    have hlen32 : (i32ToLeBytes tz).length = 4 := natToLeBytes_length 4 _
    show Action.fromBytes ((124 :: (i64ToLeBytes ts ++ i32ToLeBytes tz)) ++ [10]).dropLast = _
    rw [List.dropLast_concat]
    unfold Action.fromBytes
    dsimp only
    rw [if_neg (by decide), if_neg (by decide), if_neg (by decide), if_pos rfl]
    rw [if_neg (by simp [hlen64, hlen32])]
    rw [if_neg (by simp [hlen64, hlen32])]
    rw [List.take_left' hlen64, List.drop_left' hlen64, ← hlen32, List.take_length]
    rw [i64_roundtrip ts hts1 hts2, i32_roundtrip tz htz1 htz2]
    rfl

/-- C5 witness: a `RecordStart` with a multi-byte UTF-8 mixed-case name and
a negative UTC offset, plus a `RecordStop`, decode back exactly with the
lower-cased key. -/
theorem action_encode_decode_roundtrip_witness :
    (Action.RecordStart "Café" 1648417054 (-14400)).wf ∧
    Action.fromBytes (Action.RecordStart "Café" 1648417054 (-14400)).toBytes.dropLast
      = .ok (some (ProjectKey.new "Café")) (.RecordStart "Café" 1648417054 (-14400)) ∧
    (Action.RecordStop 7 0).wf ∧
    Action.fromBytes (Action.RecordStop 7 0).toBytes.dropLast = .ok none (.RecordStop 7 0) :=
  ⟨by decide,
   action_encode_decode_roundtrip (.RecordStart "Café" 1648417054 (-14400)) (by decide),
   by decide,
   action_encode_decode_roundtrip (.RecordStop 7 0) (by decide)⟩

/-! ### Replay determinism (C6) -/

/-- C6 — replay is deterministic: two fresh `Database::open` calls replaying
the same log content produce identical project maps — same keys, same
project names, same record sequences — and identical active-project
pointers. Replay is a pure function of the log bytes: the map is a
`BTreeMap` (deterministic order), no wall-clock value enters `load_all`, and
every decoded timestamp comes from the entry itself, so the two databases
agree observation by observation. -/
theorem replay_deterministic (log : List Nat) (d1 d2 : Database)
    (h1 : openDb log false = some d1) (h2 : openDb log false = some d2) :
    d1.projects.map (fun kp => (kp.1, kp.2.name, kp.2.records))
      = d2.projects.map (fun kp => (kp.1, kp.2.name, kp.2.records)) ∧
    d1.lastProject = d2.lastProject := by
  rw [h1] at h2
  injection h2 with h
  rw [h]
  exact ⟨rfl, rfl⟩

/-- C6 witness: a log holding `ProjectAdd "Foo"`, `RecordStart` at t = 5 and
`RecordStop` at t = 5 replays to a concrete database, and two opens of it
agree. -/
theorem replay_deterministic_witness :
    openDb (Action.toBytes (.ProjectAdd "Foo") ++ Action.toBytes (.RecordStart "foo" 5 0)
        ++ Action.toBytes (.RecordStop 5 0)) false
      = some
        { storage :=
            { log := Action.toBytes (.ProjectAdd "Foo") ++ Action.toBytes (.RecordStart "foo" 5 0)
                ++ Action.toBytes (.RecordStop 5 0),
              failAppend := false },
          projects := [(ProjectKey.new "Foo",
            { name := "Foo", records := [{ start := 5, endTime := some 5, billable := true }] })],
          lastProject := none } ∧
    ∀ d1 d2,
      openDb (Action.toBytes (.ProjectAdd "Foo") ++ Action.toBytes (.RecordStart "foo" 5 0)
          ++ Action.toBytes (.RecordStop 5 0)) false = some d1 →
      openDb (Action.toBytes (.ProjectAdd "Foo") ++ Action.toBytes (.RecordStart "foo" 5 0)
          ++ Action.toBytes (.RecordStop 5 0)) false = some d2 →
      d1.projects.map (fun kp => (kp.1, kp.2.name, kp.2.records))
        = d2.projects.map (fun kp => (kp.1, kp.2.name, kp.2.records)) ∧
      d1.lastProject = d2.lastProject :=
  ⟨by decide, fun d1 d2 h1 h2 => replay_deterministic _ d1 d2 h1 h2⟩

end Timeknight
